import Mathlib

/-
Verification of the content-approval dashboard (show_off repository).

The development shallowly embeds the client-side content synchronizer and
the Remote Content Gateway adapter of the frontend:

* data model: `Post`, `PushHistory`, `ContentItem`
  (src/frontend/src/types, src/frontend/src/utils/backendApi.ts);
* ingest conversion `convertContentItemToPost` — two coexisting variants,
  one in src/frontend/src/App.tsx and one in the unnamed second App file;
* the grouping step of `loadContentFromBackend` (the reduce over
  repository/branch keys), modelled as `groupPosts`;
* the handler functions of App.tsx (`handleApprove`, `handleDisapprove`,
  `handleContentChange`, `rephrasePost`, `loadPush`) as state
  transformers over `SyncState` that also report the Gateway calls they
  issue;
* the transport helper `fetchWithExponentialBackoff`
  (src/frontend/src/utils/data.ts) and the Gateway operations
  `getContentItems`, `rephraseContent`, `approveAndPost` built on it,
  modelled over an abstract transport function so that request counts
  are observable.

JavaScript specifics kept faithfully: the `||` operator on optional
strings treats the empty string as absent (`jsOrElse`); a JS object with
non-index string keys enumerates keys in insertion order, so the
grouping accumulator is an insertion-ordered association list; the React
`isLoading` map is modelled as the list of ids currently flagged busy
(insertion pushes the id, clearing removes every occurrence).
-/

/-! ## Data model -/

inductive Platform where
  | linkedin
  | x
  | email
  | tiktok
deriving DecidableEq, Repr

inductive MediaKind where
  | image
  | video
deriving DecidableEq, Repr

structure MediaItem where
  url : String
  kind : MediaKind
  caption : Option String
deriving DecidableEq, Repr

structure Author where
  name : String
  title : Option String
  handle : Option String
  avatar : String
deriving DecidableEq, Repr

/-- Local status vocabulary of the frontend Post type. -/
inductive Status where
  | pending
  | approved
  | disapproved
  | posted
deriving DecidableEq, Repr

/-- Post, as in src/frontend/src/types (shared variant with media list and
provenance fields). -/
structure Post where
  id : String
  platform : Platform
  author : Author
  content : String
  status : Status
  media : List MediaItem
  repository : Option String
  commit_sha : Option String
  branch : Option String
deriving DecidableEq, Repr

/-- PushHistory, one bucket of posts sharing a repository/branch key. -/
structure PushHistory where
  id : String
  posts : List Post
deriving DecidableEq, Repr

/-- ContentItem as delivered by the backend (src/frontend/src/utils/backendApi.ts).
The remote status is kept as a plain string: the handlers compare it with
string literals, and the defensive default branch accepts any value. -/
structure ContentItem where
  itemId : String
  repository : String
  event : String
  commit_sha : String
  branch : String
  prompt : String
  content : String
  status : String
  media : Option (List MediaItem)
  platform : Option Platform
  author : Option Author
deriving DecidableEq, Repr

/-- Default author used when the backend item carries none. -/
def systemAuthor : Author :=
  { name := "System", title := none, handle := none,
    avatar := "https://placehold.co/100x100/667eea/ffffff?text=SYS" }

/-! ## Ingest conversion — the two coexisting variants -/

/-- Remote-to-local status mapping of `convertContentItemToPost` in
src/frontend/src/App.tsx (lines 43-45). -/
def convertStatus (s : String) : Status :=
  if s = "pending_validation" then Status.pending
  else if s = "approved" then Status.approved
  else if s = "rejected" then Status.disapproved
  else Status.posted

/-- Remote-to-local status mapping of `convertContentItemToPost` in the
unnamed second App file (part_000, lines 18-20). -/
def convertStatusAlt (s : String) : Status :=
  if s = "pending" then Status.pending
  else if s = "rephrased" then Status.approved
  else if s = "rejected" then Status.disapproved
  else Status.posted

/-- `convertContentItemToPost` from src/frontend/src/App.tsx. -/
def convertContentItemToPost (item : ContentItem) : Post :=
  { id := item.itemId
    platform := item.platform.getD Platform.linkedin
    author := item.author.getD systemAuthor
    content := item.content
    status := convertStatus item.status
    media := item.media.getD []
    repository := some item.repository
    commit_sha := some item.commit_sha
    branch := some item.branch }

/-- `convertContentItemToPost` from the unnamed second App file (part_000). -/
def convertContentItemToPostAlt (item : ContentItem) : Post :=
  { id := item.itemId
    platform := item.platform.getD Platform.linkedin
    author := item.author.getD systemAuthor
    content := item.content
    status := convertStatusAlt item.status
    media := item.media.getD []
    repository := some item.repository
    commit_sha := some item.commit_sha
    branch := some item.branch }

/-! ## Tone bands (rephraseContent, src/frontend/src/utils/backendApi.ts) -/

/-- `getInstructionsFromTone` inside `rephraseContent`
(src/frontend/src/utils/backendApi.ts, lines 101-109). The argument is a
rational because JavaScript numbers are passed; App.tsx passes the raw
slider value 0-100 while part_000 passes the slider value divided by 100. -/
def getInstructionsFromTone (tone : ℚ) : String :=
  if tone < 30 then "Make this content more formal and professional"
  else if tone > 70 then "Make this content more casual, engaging, and fun with emojis"
  else "Make this content more engaging and professional while maintaining balance"

/-- The instruction actually sent for slider value `tone` by the App.tsx
variant: `rephrasePost` passes the raw 0-100 tone to `rephraseContent`. -/
def appRephraseInstruction (tone : ℚ) : String :=
  getInstructionsFromTone tone

/-- The instruction actually sent for slider value `tone` by the part_000
variant: `rephrasePost` passes `normalizedTone = tone / 100`
(part_000 lines 98-99 and 201). -/
def part000RephraseInstruction (tone : ℚ) : String :=
  getInstructionsFromTone (tone / 100)

/-! ## Transport layer -/

/-- Outcome of one underlying `fetch` attempt. -/
inductive FetchResult where
  | ok (body : String)
  | httpError (code : Nat)
  | networkError
deriving DecidableEq, Repr

/-- `fetchWithExponentialBackoff` (src/frontend/src/utils/data.ts, lines
68-89): a non-ok response throws and is caught together with network
errors; while `retries > 0` the call re-issues the request with the delay
doubled, otherwise the error propagates. `transport k` is the outcome of
the k-th HTTP request of this call chain. The result pairs the number of
HTTP requests actually issued with the final outcome. -/
def fetchWithExponentialBackoff (transport : Nat → FetchResult) :
    Nat → Nat → Nat → Nat × Except Unit String
  | k, 0, _delay =>
    match transport k with
    | FetchResult.ok body => (1, Except.ok body)
    | _ => (1, Except.error ())
  | k, retries + 1, delay =>
    match transport k with
    | FetchResult.ok body => (1, Except.ok body)
    | _ =>
      let res := fetchWithExponentialBackoff transport (k + 1) retries (delay * 2)
      (res.1 + 1, res.2)

/-- `getContentItems` (src/frontend/src/utils/backendApi.ts, lines 55-67):
the whole body is wrapped in try/catch and any error — transport failure
after retries, or a JSON decode failure — is caught and turned into the
empty list. `decode` abstracts `response.json()`. The call uses the
default budget of the backoff helper: 3 retries, base delay 1000. -/
def getContentItems (transport : Nat → FetchResult)
    (decode : String → Except Unit (List ContentItem)) :
    Except Unit (List ContentItem) :=
  match (fetchWithExponentialBackoff transport 0 3 1000).2 with
  | Except.ok body =>
    match decode body with
    | Except.ok items => Except.ok items
    | Except.error _ => Except.ok []
  | Except.error _ => Except.ok []

/-- `rephraseContent` (src/frontend/src/utils/backendApi.ts, lines 97-137):
posts to /content/id/rephrase through `fetchWithExponentialBackoff`
(default budget), then fails if the decoded result carries no content.
Returns the number of HTTP requests issued alongside the outcome.
`decode` abstracts `response.json()` followed by the `result.content`
projection. -/
def rephraseContent (transport : Nat → FetchResult)
    (decode : String → Option String) : Nat × Except Unit String :=
  ((fetchWithExponentialBackoff transport 0 3 1000).1,
   match (fetchWithExponentialBackoff transport 0 3 1000).2 with
   | Except.ok body =>
     match decode body with
     | some c => Except.ok c
     | none => Except.error ()
   | Except.error _ => Except.error ())

/-- `approveAndPost` (src/frontend/src/utils/backendApi.ts, lines 140-145):
posts to /content/id/approve through `fetchWithExponentialBackoff`
(default budget). Returns the number of HTTP requests issued and the
outcome. -/
def approveAndPost (transport : Nat → FetchResult) : Nat × Except Unit Unit :=
  ((fetchWithExponentialBackoff transport 0 3 1000).1,
   (fetchWithExponentialBackoff transport 0 3 1000).2.map fun _ => ())

/-! ## Grouping (loadContentFromBackend, src/frontend/src/App.tsx lines 74-92) -/

/-- JavaScript `a || d` on an optional string: both a missing value and the
empty string fall back to the default. -/
def jsOrElse (o : Option String) (d : String) : String :=
  match o with
  | none => d
  | some s => if s = "" then d else s

/-- The grouping key computed by the reduce:
`(post.repository || "unknown") ++ "-" ++ (post.branch || "main")`. -/
def originKey (p : Post) : String :=
  jsOrElse p.repository "unknown" ++ "-" ++ jsOrElse p.branch "main"

/-- Modelled from the spec: the originKey formula as literally written in
the specification, `(repository ?? "unknown") + "-" + (branch ?? "main")`,
with JavaScript `??` semantics (only a missing value falls back, the empty
string does not). Used only to compare the spec formula with the source
computation `originKey`, which uses `||`. -/
def originKeySpecFormula (p : Post) : String :=
  p.repository.getD "unknown" ++ "-" ++ p.branch.getD "main"

/-- One step of the grouping reduce: `if (!acc[key]) acc[key] = [];
acc[key].push(post)`. The JS object with non-index string keys is an
insertion-ordered association list, here a list of `PushHistory` buckets:
a fresh key appends a new bucket at the end, an existing key appends the
post at the end of its bucket. -/
def insertPost (k : String) (p : Post) : List PushHistory → List PushHistory
  | [] => [{ id := k, posts := [p] }]
  | g :: rest =>
    if g.id = k then { id := g.id, posts := g.posts ++ [p] } :: rest
    else g :: insertPost k p rest

/-- The grouping reduce folded over the ingested posts, starting from the
accumulator `gs`. -/
def groupAux (gs : List PushHistory) : List Post → List PushHistory
  | [] => gs
  | p :: rest => groupAux (insertPost (originKey p) p gs) rest

/-- `loadContentFromBackend` grouping step followed by
`Object.entries(...).map(([key, posts]) => ({id: key, posts}))`: the push
history produced from one ingested list of posts. -/
def groupPosts (l : List Post) : List PushHistory :=
  groupAux [] l

/-- The ids of the produced groups. -/
def keysOf (gs : List PushHistory) : List String :=
  gs.map PushHistory.id

/-- The bucket stored under key `k` (first match), empty if absent. -/
def bucket (k : String) : List PushHistory → List Post
  | [] => []
  | g :: rest => if g.id = k then g.posts else bucket k rest

/-- Concatenation of all buckets. -/
def joinGroups (gs : List PushHistory) : List Post :=
  (gs.map PushHistory.posts).flatten

/-! ## Synchronizer state (App.tsx component state) -/

/-- The React state of the App component that the handlers touch:
`posts`, `postHistory`, `currentPushId`, `tone`, `isSidebarOpen`,
`isLoading` (as the list of ids currently flagged busy) and
`backendConnected`. -/
structure SyncState where
  posts : List Post
  postHistory : List PushHistory
  currentPushId : Option String
  tone : ℚ
  isSidebarOpen : Bool
  busy : List String
  backendConnected : Bool
deriving DecidableEq, Repr

/-- A remote call issued by a handler, recorded rather than performed. -/
inductive GatewayCall where
  | approveAndPost (id : String)
  | updateStatus (id : String) (remoteStatus : String)
  | updateText (id : String) (content : String)
  | rephraseBackend (id : String) (tone : ℚ)
  | rephraseMCP (content : String) (tone : ℚ)
deriving DecidableEq, Repr

/-- `posts.map(p => p.id === id ? {...p, status} : p)`. -/
def setPostStatus (l : List Post) (id : String) (st : Status) : List Post :=
  l.map fun p => if p.id = id then { p with status := st } else p

/-- `posts.map(p => p.id === id ? {...p, content} : p)`. -/
def setPostContent (l : List Post) (id : String) (c : String) : List Post :=
  l.map fun p => if p.id = id then { p with content := c } else p

/-- `handleApprove` (App.tsx lines 135-147): when the backend is connected
it awaits `approveAndPost(id)`; the optimistic status update to `posted`
runs unless that remote call threw (the catch skips `setPosts`).
`remoteOk` is the outcome of the awaited call. -/
def handleApprove (s : SyncState) (id : String) (remoteOk : Bool) :
    SyncState × List GatewayCall :=
  let calls := if s.backendConnected then [GatewayCall.approveAndPost id] else []
  if s.backendConnected && !remoteOk then (s, calls)
  else ({ s with posts := setPostStatus s.posts id Status.posted }, calls)

/-- `handleDisapprove` (App.tsx lines 149-161): remote
`updateContentStatus(id, "rejected")` when connected, then the local
status update to `disapproved` unless the remote call threw. -/
def handleDisapprove (s : SyncState) (id : String) (remoteOk : Bool) :
    SyncState × List GatewayCall :=
  let calls := if s.backendConnected then [GatewayCall.updateStatus id "rejected"] else []
  if s.backendConnected && !remoteOk then (s, calls)
  else ({ s with posts := setPostStatus s.posts id Status.disapproved }, calls)

/-- `handleContentChange` (App.tsx lines 163-181): updates the flat posts
list immediately, then fires `updateContentText` when connected; a remote
failure is only logged, so the resulting state does not depend on the
remote outcome. `postHistory` is not touched. -/
def handleContentChange (s : SyncState) (id : String) (value : String) :
    SyncState × List GatewayCall :=
  ({ s with posts := setPostContent s.posts id value },
   if s.backendConnected then [GatewayCall.updateText id value] else [])

/-- `loadPush` (App.tsx lines 114-123): selecting a group replaces the
displayed list and the selection, and collapses the sidebar on narrow
viewports; an unknown pushId matches nothing and the body is skipped. -/
def loadPush (s : SyncState) (pushId : String) (viewportWidth : Nat) : SyncState :=
  match s.postHistory.find? (fun p => p.id == pushId) with
  | some push =>
    let s1 := { s with posts := push.posts, currentPushId := some pushId }
    if viewportWidth < 1024 then { s1 with isSidebarOpen := false } else s1
  | none => s

/-- The in-flight placeholder written by `rephrasePost` before awaiting. -/
def rephrasePlaceholder : String := "Rephrasing with AI... ✨"

/-- The synchronous prefix of `rephrasePost` (App.tsx lines 184-215), up to
and including issuing the remote call: find the post (early return when
absent), set the busy flag, write the placeholder content, and issue
either the backend rephrase or the MCP fallback rephrase. -/
def rephraseStart (s : SyncState) (id : String) : SyncState × List GatewayCall :=
  match s.posts.find? (fun p => p.id == id) with
  | none => (s, [])
  | some p =>
    ({ s with busy := id :: s.busy,
              posts := setPostContent s.posts id rephrasePlaceholder },
     if s.backendConnected then [GatewayCall.rephraseBackend id s.tone]
     else [GatewayCall.rephraseMCP p.content s.tone])

/-- The continuation of `rephrasePost` once the awaited call resolves:
on success the returned text is written, on failure the catch restores
`originalContent`; the finally block clears the busy flag either way. -/
def rephraseFinish (s : SyncState) (id : String) (originalContent : String)
    (outcome : Except Unit String) : SyncState :=
  let s1 :=
    match outcome with
    | Except.ok newContent => { s with posts := setPostContent s.posts id newContent }
    | Except.error _ => { s with posts := setPostContent s.posts id originalContent }
  { s1 with busy := s1.busy.filter fun b => b != id }

/-- The whole of `rephrasePost` for one resolved outcome: start phase, then
finish phase with the original content captured before the placeholder. -/
def rephrasePost (s : SyncState) (id : String) (outcome : Except Unit String) :
    SyncState × List GatewayCall :=
  match s.posts.find? (fun p => p.id == id) with
  | none => (s, [])
  | some p =>
    let r := rephraseStart s id
    (rephraseFinish r.1 id p.content outcome, r.2)

/-! ## Presentation-layer dispatch (the disabled attributes in the JSX)

The App.tsx render disables the approve and reject buttons and the content
textarea whenever `post.status !== "pending"`, and the rephrase button
whenever `post.status !== "pending" || isLoading[post.id]`. A disabled
control fires no handler, so a user intent reaches the handler only when
the guard passes; these dispatchers model one click or one input event on
the card of the given post. -/

def dispatchApprove (s : SyncState) (id : String) (remoteOk : Bool) :
    SyncState × List GatewayCall :=
  match s.posts.find? (fun p => p.id == id) with
  | some p => if p.status = Status.pending then handleApprove s id remoteOk else (s, [])
  | none => (s, [])

def dispatchDisapprove (s : SyncState) (id : String) (remoteOk : Bool) :
    SyncState × List GatewayCall :=
  match s.posts.find? (fun p => p.id == id) with
  | some p => if p.status = Status.pending then handleDisapprove s id remoteOk else (s, [])
  | none => (s, [])

def dispatchContentChange (s : SyncState) (id : String) (value : String) :
    SyncState × List GatewayCall :=
  match s.posts.find? (fun p => p.id == id) with
  | some p => if p.status = Status.pending then handleContentChange s id value else (s, [])
  | none => (s, [])

def dispatchRephrase (s : SyncState) (id : String) (outcome : Except Unit String) :
    SyncState × List GatewayCall :=
  match s.posts.find? (fun p => p.id == id) with
  | some p =>
    if p.status = Status.pending ∧ id ∉ s.busy then rephrasePost s id outcome
    else (s, [])
  | none => (s, [])

def dispatchRephraseStart (s : SyncState) (id : String) : SyncState × List GatewayCall :=
  match s.posts.find? (fun p => p.id == id) with
  | some p =>
    if p.status = Status.pending ∧ id ∉ s.busy then rephraseStart s id
    else (s, [])
  | none => (s, [])

/-! ## Concrete states used by counterexamples and witnesses -/

/-- A minimal post for concrete scenarios. -/
def samplePost (id : String) (st : Status) (content : String)
    (repo branch : Option String) : Post :=
  { id := id, platform := Platform.linkedin, author := systemAuthor,
    content := content, status := st, media := [],
    repository := repo, commit_sha := none, branch := branch }

def c1Post : Post := samplePost "a" Status.disapproved "done" (some "r1") (some "main")

def c1State : SyncState :=
  { posts := [c1Post], postHistory := [], currentPushId := none, tone := 50,
    isSidebarOpen := false, busy := [], backendConnected := true }

def c2Item : ContentItem :=
  { itemId := "1", repository := "r", event := "push", commit_sha := "c",
    branch := "main", prompt := "p", content := "t", status := "pending",
    media := none, platform := none, author := none }

def c3Post : Post := samplePost "a" Status.pending "old" (some "r1") (some "main")

def c3State : SyncState :=
  { posts := [c3Post], postHistory := [{ id := "r1-main", posts := [c3Post] }],
    currentPushId := some "r1-main", tone := 50,
    isSidebarOpen := false, busy := [], backendConnected := true }

def c4Post : Post := samplePost "a" Status.pending "c" (some "") (some "main")

def c6Post : Post := samplePost "a" Status.pending "hello" (some "r1") (some "main")

def c6State : SyncState :=
  { posts := [c6Post], postHistory := [], currentPushId := none, tone := 50,
    isSidebarOpen := false, busy := [], backendConnected := true }

def c8Post : Post := samplePost "a" Status.pending "orig" (some "r1") (some "main")

def c8State : SyncState :=
  { posts := [c8Post], postHistory := [], currentPushId := none, tone := 50,
    isSidebarOpen := false, busy := [], backendConnected := true }

def c10State : SyncState :=
  { posts := [], postHistory := [], currentPushId := none, tone := 50,
    isSidebarOpen := true, busy := [], backendConnected := true }

/-- A transport on which every HTTP request fails at the network level. -/
def alwaysFailTransport : Nat → FetchResult := fun _ => FetchResult.networkError

/-- A body decoder that never finds a content field. -/
def emptyBodyDecode : String → Option String := fun _ => none

/-- An item decoder returning the empty list on every body. -/
def emptyListDecode : String → Except Unit (List ContentItem) := fun _ => Except.ok []

/-! ## Helper lemmas -/

/-- An element with the sought id survives `setPostContent` as the first
match, carrying the written content. -/
theorem find?_setPostContent (l : List Post) (id v : String)
    (h : ∃ p, p ∈ l ∧ p.id = id) :
    ∃ q, (setPostContent l id v).find? (fun r => r.id == id) = some q ∧
      q.id = id ∧ q.content = v := by
  induction l with
  | nil =>
    obtain ⟨p, hp, _⟩ := h
    cases hp
  | cons a t ih =>
    by_cases ha : a.id = id
    · refine ⟨{ a with content := v }, ?_, ha, rfl⟩
      simp [setPostContent, ha]
    · obtain ⟨p, hp, hpid⟩ := h
      rcases List.mem_cons.mp hp with rfl | hpt
      · exact absurd hpid ha
      · obtain ⟨q, hq, hqid, hqc⟩ := ih ⟨p, hpt, hpid⟩
        refine ⟨q, ?_, hqid, hqc⟩
        simpa [setPostContent, ha] using hq

/-- `setPostContent` keeps an element with the sought id in the list. -/
theorem exists_mem_setPostContent (l : List Post) (id v : String)
    (h : ∃ p, p ∈ l ∧ p.id = id) :
    ∃ q, q ∈ setPostContent l id v ∧ q.id = id := by
  obtain ⟨p, hp, hid⟩ := h
  refine ⟨{ p with content := v }, ?_, hid⟩
  have : (if p.id = id then { p with content := v } else p) = { p with content := v } :=
    if_pos hid
  exact this ▸ List.mem_map_of_mem _ hp

/-- The backoff helper issues at most `retries + 1` HTTP requests. -/
theorem backoff_count_le (transport : Nat → FetchResult) :
    ∀ (retries k delay : Nat),
      (fetchWithExponentialBackoff transport k retries delay).1 ≤ retries + 1 := by
  intro retries
  induction retries with
  | zero =>
    intro k delay
    unfold fetchWithExponentialBackoff
    cases transport k <;> simp
  | succ n ih =>
    intro k delay
    unfold fetchWithExponentialBackoff
    cases transport k with
    | ok body => simp
    | httpError code =>
      have := ih (k + 1) (delay * 2)
      simpa using Nat.succ_le_succ this
    | networkError =>
      have := ih (k + 1) (delay * 2)
      simpa using Nat.succ_le_succ this

/-- When the first attempt succeeds, the backoff helper issues exactly one
request and returns that body. -/
theorem backoff_first_ok (transport : Nat → FetchResult) (body : String)
    (k : Nat) (h : transport k = FetchResult.ok body) :
    ∀ (retries delay : Nat),
      fetchWithExponentialBackoff transport k retries delay = (1, Except.ok body) := by
  intro retries delay
  cases retries <;> unfold fetchWithExponentialBackoff <;> rw [h]

/-- C5 counterexample: with a transport that fails every attempt, a single
`rephraseContent` call and a single `approveAndPost` call each issue 4 HTTP
requests — the backoff helper silently re-issues them — contradicting the
claim that at most one HTTP request is issued with no backoff-driven
re-issue. -/
theorem transport_retry_counterexample :
    (rephraseContent alwaysFailTransport emptyBodyDecode).1 = 4 ∧
    (approveAndPost alwaysFailTransport).1 = 4 ∧
    ¬ (4 : Nat) ≤ 1 := by
  refine ⟨rfl, rfl, by decide⟩

/-- C5 (amended): `rephraseContent` and `approveAndPost` go through
`fetchWithExponentialBackoff` with the default budget of 3 retries, so one
call issues between 1 and 4 HTTP requests: exactly one when the first
attempt succeeds, and one re-issue per failed attempt up to the budget. -/
theorem rephrase_approve_retry_bound (transport : Nat → FetchResult)
    (decode : String → Option String) :
    (rephraseContent transport decode).1 ≤ 4 ∧
    (approveAndPost transport).1 ≤ 4 ∧
    (∀ body, transport 0 = FetchResult.ok body →
      (rephraseContent transport decode).1 = 1 ∧ (approveAndPost transport).1 = 1) := by
  refine ⟨backoff_count_le transport 3 0 1000, backoff_count_le transport 3 0 1000, ?_⟩
  intro body h
  have hb := backoff_first_ok transport body 0 h 3 1000
  constructor
  · show (fetchWithExponentialBackoff transport 0 3 1000).1 = 1
    rw [hb]
  · show (fetchWithExponentialBackoff transport 0 3 1000).1 = 1
    rw [hb]

/-- C7 counterexample: with a transport on which every attempt fails, the
backoff result is an error, yet `getContentItems` catches it and returns
the empty list as an ordinary value — it does not throw on transport
failure as the claim states. -/
theorem fetchAll_failure_counterexample :
    (fetchWithExponentialBackoff alwaysFailTransport 0 3 1000).2 = Except.error () ∧
    getContentItems alwaysFailTransport emptyListDecode = Except.ok [] := by
  exact ⟨rfl, rfl⟩

/-- C7 (amended): `getContentItems` returns the decoded remote set when the
transport and the decoder succeed (so the empty list when the store is
empty), and on transport failure it catches the error and returns the
empty list; it never propagates an error. -/
theorem getContentItems_total (transport : Nat → FetchResult)
    (decode : String → Except Unit (List ContentItem)) :
    (∀ body items, (fetchWithExponentialBackoff transport 0 3 1000).2 = Except.ok body →
      decode body = Except.ok items → getContentItems transport decode = Except.ok items) ∧
    ((fetchWithExponentialBackoff transport 0 3 1000).2 = Except.error () →
      getContentItems transport decode = Except.ok []) ∧
    (∃ items, getContentItems transport decode = Except.ok items) := by
  refine ⟨?_, ?_, ?_⟩
  · intro body items h1 h2
    simp [getContentItems, h1, h2]
  · intro h1
    simp [getContentItems, h1]
  · cases h1 : (fetchWithExponentialBackoff transport 0 3 1000).2 with
    | ok body =>
      cases h2 : decode body with
      | ok items => exact ⟨items, by simp [getContentItems, h1, h2]⟩
      | error e => exact ⟨[], by simp [getContentItems, h1, h2]⟩
    | error e => exact ⟨[], by simp [getContentItems, h1]⟩

/-- C2 counterexample: the App.tsx ingest conversion maps the remote status
string "pending" to local `posted`, not to local `pending` as the claim
states (the App.tsx mapping only recognizes "pending_validation"). -/
theorem status_mapping_counterexample :
    c2Item.status = "pending" ∧
    (convertContentItemToPost c2Item).status = Status.posted ∧
    Status.posted ≠ Status.pending := by
  refine ⟨rfl, rfl, by decide⟩

/-- C2 (amended): the two coexisting conversion variants each recognize only
part of the remote vocabulary. App.tsx maps "pending_validation" to
pending, "approved" to approved, "rejected" to disapproved and everything
else — including "pending" and "rephrased" — to posted; the part_000
variant maps "pending" to pending, "rephrased" to approved, "rejected" to
disapproved and everything else — including "pending_validation" and
"approved" — to posted. -/
theorem status_mapping_characterization :
    (convertStatus "pending_validation" = Status.pending ∧
     convertStatus "approved" = Status.approved ∧
     convertStatus "rejected" = Status.disapproved ∧
     convertStatus "pending" = Status.posted ∧
     convertStatus "rephrased" = Status.posted ∧
     convertStatus "published" = Status.posted ∧
     (∀ s : String, s ≠ "pending_validation" → s ≠ "approved" → s ≠ "rejected" →
       convertStatus s = Status.posted)) ∧
    (convertStatusAlt "pending" = Status.pending ∧
     convertStatusAlt "rephrased" = Status.approved ∧
     convertStatusAlt "rejected" = Status.disapproved ∧
     convertStatusAlt "pending_validation" = Status.posted ∧
     convertStatusAlt "approved" = Status.posted ∧
     convertStatusAlt "published" = Status.posted ∧
     (∀ s : String, s ≠ "pending" → s ≠ "rephrased" → s ≠ "rejected" →
       convertStatusAlt s = Status.posted)) := by
  constructor
  · refine ⟨rfl, rfl, rfl, rfl, rfl, rfl, ?_⟩
    intro s h1 h2 h3
    simp [convertStatus, h1, h2, h3]
  · refine ⟨rfl, rfl, rfl, rfl, rfl, rfl, ?_⟩
    intro s h1 h2 h3
    simp [convertStatusAlt, h1, h2, h3]

/-- C9 (code bug): in the App.tsx flow the slider value reaches
`getInstructionsFromTone` unscaled and the three tone bands behave exactly
as claimed; in the part_000 flow the slider value is divided by 100 before
being passed to the same band function, whose thresholds expect 0-100, so
every slider value lands in the below-30 formal band — at tone 100 the
formal instruction is produced instead of the fun/casual one, and tone 0
and tone 100 produce the same instruction. -/
theorem tone_bands_divergence :
    (∀ t : ℚ, 0 ≤ t → t ≤ 100 →
      ((t < 30 → appRephraseInstruction t = "Make this content more formal and professional") ∧
       (30 ≤ t → t ≤ 70 →
         appRephraseInstruction t =
           "Make this content more engaging and professional while maintaining balance") ∧
       (70 < t →
         appRephraseInstruction t =
           "Make this content more casual, engaging, and fun with emojis"))) ∧
    part000RephraseInstruction 100 = "Make this content more formal and professional" ∧
    part000RephraseInstruction 0 = part000RephraseInstruction 100 := by
  refine ⟨?_, ?_, ?_⟩
  · intro t h0 h100
    refine ⟨?_, ?_, ?_⟩
    · intro h
      simp [appRephraseInstruction, getInstructionsFromTone, h]
    · intro h1 h2
      have hn1 : ¬ t < 30 := by linarith
      have hn2 : ¬ t > 70 := by linarith
      simp [appRephraseInstruction, getInstructionsFromTone, hn1, hn2]
    · intro h
      have hn1 : ¬ t < 30 := by linarith
      simp [appRephraseInstruction, getInstructionsFromTone, hn1, h]
  · norm_num [part000RephraseInstruction, getInstructionsFromTone]
  · norm_num [part000RephraseInstruction, getInstructionsFromTone]

/-- C10: selecting a pushId that matches no group in the push history is a
complete no-op — `loadPush` finds nothing and skips its body, leaving the
displayed posts, the selection and the sidebar state unchanged. -/
theorem loadPush_unknown_id_noop (s : SyncState) (pushId : String)
    (viewportWidth : Nat)
    (h : s.postHistory.find? (fun p => p.id == pushId) = none) :
    loadPush s pushId viewportWidth = s := by
  unfold loadPush
  rw [h]

/-- Witness for C10 at a concrete state with an empty push history. -/
theorem loadPush_unknown_id_noop_witness :
    loadPush c10State "nope" 800 = c10State :=
  loadPush_unknown_id_noop c10State "nope" 800 rfl

/-- C1 counterexample: `handleApprove` invoked on a post whose status is
`disapproved` (not `pending`) still issues the approveAndPost Gateway call
and flips the post status to `posted` — the handler itself performs no
status guard, so the operation is not a no-op. -/
theorem guard_invariant_counterexample :
    c1Post.status = Status.disapproved ∧
    (handleApprove c1State "a" true).2 = [GatewayCall.approveAndPost "a"] ∧
    ((handleApprove c1State "a" true).1.posts.find? (fun p => p.id == "a")).map Post.status =
      some Status.posted ∧
    Status.posted ≠ Status.disapproved := by
  refine ⟨rfl, rfl, rfl, by decide⟩

/-- C1 (amended): the guard is enforced at the presentation layer, not in
the handlers. The JSX renders the approve and reject buttons, the content
textarea and the rephrase button disabled whenever the post status is not
`pending`, so no user intent reaches a handler for a non-pending post:
dispatched through the UI, edit-text, rephrase, approve and disapprove on
a non-pending post leave the state unchanged and issue no Gateway call.
The handler functions themselves do not check the status and, invoked
directly, mutate state and issue the call. -/
theorem guard_invariant_ui_dispatch (s : SyncState) (id value : String)
    (remoteOk : Bool) (outcome : Except Unit String) (p : Post)
    (hfind : s.posts.find? (fun q => q.id == id) = some p)
    (hst : p.status ≠ Status.pending) :
    dispatchApprove s id remoteOk = (s, []) ∧
    dispatchDisapprove s id remoteOk = (s, []) ∧
    dispatchContentChange s id value = (s, []) ∧
    dispatchRephrase s id outcome = (s, []) := by
  refine ⟨?_, ?_, ?_, ?_⟩
  · simp [dispatchApprove, hfind, hst]
  · simp [dispatchDisapprove, hfind, hst]
  · simp [dispatchContentChange, hfind, hst]
  · simp [dispatchRephrase, hfind, hst]

/-- Witness for the amended C1 at a concrete state holding a disapproved
post. -/
theorem guard_invariant_ui_dispatch_witness :
    dispatchApprove c1State "a" true = (c1State, []) ∧
    dispatchRephrase c1State "a" (Except.error ()) = (c1State, []) := by
  have h := guard_invariant_ui_dispatch c1State "a" "edited" true (Except.error ())
    c1Post rfl (by decide)
  exact ⟨h.1, h.2.2.2⟩

/-- C3 counterexample: after `handleContentChange` writes "X" for post "a",
the flat displayed list reports "X" but the copy of the same post inside
its PushGroup in the post history still reports the old content — one copy
updated, the other stale. -/
theorem edit_atomic_visibility_counterexample :
    (((handleContentChange c3State "a" "X").1.posts.find?
        (fun p => p.id == "a")).map Post.content = some "X") ∧
    (((handleContentChange c3State "a" "X").1.postHistory.find?
        (fun g => g.id == "r1-main")).map
          (fun g => (g.posts.find? (fun p => p.id == "a")).map Post.content) =
      some (some "old")) ∧
    ("old" : String) ≠ "X" := by
  refine ⟨rfl, rfl, by decide⟩

/-- C3 (amended): after an edit-text operation the flat displayed list
reports the new content, but the post history (the PushGroup copies) is
not touched at all by `handleContentChange` — the group-contained entry
keeps its previous content until the next full ingest. -/
theorem editText_flat_updated_group_stale (s : SyncState) (id value : String)
    (p : Post)
    (hfind : s.posts.find? (fun q => q.id == id) = some p) :
    (handleContentChange s id value).1.postHistory = s.postHistory ∧
    ((handleContentChange s id value).1.posts.find?
        (fun q => q.id == id)).map Post.content = some value := by
  constructor
  · rfl
  · have hmem : p ∈ s.posts := List.mem_of_find?_eq_some hfind
    have hid : p.id = id := by simpa using List.find?_some hfind
    obtain ⟨q, hq, _, hqc⟩ := find?_setPostContent s.posts id value ⟨p, hmem, hid⟩
    simp [handleContentChange, hq, hqc]

/-- Witness for the amended C3 at a concrete state. -/
theorem editText_flat_updated_group_stale_witness :
    (handleContentChange c3State "a" "X").1.postHistory = c3State.postHistory ∧
    ((handleContentChange c3State "a" "X").1.posts.find?
        (fun q => q.id == "a")).map Post.content = some "X" :=
  editText_flat_updated_group_stale c3State "a" "X" c3Post rfl

/-- C6 counterexample: `rephrasePost` performs no busy-flag check. From a
state with no rephrase in flight, the synchronous start phase issues a
remote call and sets the busy flag; invoking the start phase again for the
same id before the first call resolves issues a second remote call instead
of rejecting or deferring it — two rephrase calls for "a" are in flight
concurrently. -/
theorem rephrase_mutex_counterexample :
    (rephraseStart c6State "a").2 = [GatewayCall.rephraseBackend "a" 50] ∧
    "a" ∈ (rephraseStart c6State "a").1.busy ∧
    (rephraseStart (rephraseStart c6State "a").1 "a").2 =
      [GatewayCall.rephraseBackend "a" 50] := by
  refine ⟨rfl, by decide, rfl⟩

/-- C6 (amended): mutual exclusion is enforced only at the presentation
layer. The rephrase button is rendered disabled while `isLoading[id]` is
set, so of two immediate clicks the first dispatches one remote call and
sets the busy flag, and the second dispatches nothing — exactly one call
in flight. The `rephrasePost` function itself does not consult the busy
flag; invoked directly twice it issues two concurrent remote calls. -/
theorem rephrase_mutex_ui_dispatch (s : SyncState) (id : String) (p : Post)
    (hfind : s.posts.find? (fun q => q.id == id) = some p)
    (hp : p.status = Status.pending) (hb : id ∉ s.busy) :
    (dispatchRephraseStart s id).2.length = 1 ∧
    dispatchRephraseStart (dispatchRephraseStart s id).1 id =
      ((dispatchRephraseStart s id).1, []) := by
  have hstart : dispatchRephraseStart s id = rephraseStart s id := by
    simp [dispatchRephraseStart, hfind, hp, hb]
  have hval : rephraseStart s id =
      ({ s with busy := id :: s.busy,
                posts := setPostContent s.posts id rephrasePlaceholder },
       if s.backendConnected then [GatewayCall.rephraseBackend id s.tone]
       else [GatewayCall.rephraseMCP p.content s.tone]) := by
    simp [rephraseStart, hfind]
  constructor
  · rw [hstart, hval]
    cases s.backendConnected <;> simp
  · have hmem : p ∈ s.posts := List.mem_of_find?_eq_some hfind
    have hid : p.id = id := by simpa using List.find?_some hfind
    obtain ⟨q, hq, hqid, _⟩ :=
      find?_setPostContent s.posts id rephrasePlaceholder ⟨p, hmem, hid⟩
    rw [hstart, hval]
    simp [dispatchRephraseStart, hq]

/-- Witness for the amended C6 at a concrete state: the first click issues
one call, the second click while busy is ignored. -/
theorem rephrase_mutex_ui_dispatch_witness :
    (dispatchRephraseStart c6State "a").2.length = 1 ∧
    dispatchRephraseStart (dispatchRephraseStart c6State "a").1 "a" =
      ((dispatchRephraseStart c6State "a").1, []) :=
  rephrase_mutex_ui_dispatch c6State "a" c6Post rfl rfl (by decide)

/-- C8: for a rephrase on a pending post, once the awaited call resolves the
busy flag is cleared on every path (the finally block), and the final
content is the returned text on success or the captured original content
on failure — the catch block restores it, so no partial overwrite
survives. -/
theorem rephrase_outcome_correct (s : SyncState) (id : String) (p : Post)
    (outcome : Except Unit String)
    (hfind : s.posts.find? (fun q => q.id == id) = some p)
    (hp : p.status = Status.pending) :
    id ∉ (rephrasePost s id outcome).1.busy ∧
    ((rephrasePost s id outcome).1.posts.find? (fun q => q.id == id)).map Post.content =
      some (match outcome with
            | Except.ok newContent => newContent
            | Except.error _ => p.content) := by
  have hmem : p ∈ s.posts := List.mem_of_find?_eq_some hfind
  have hid : p.id = id := by simpa using List.find?_some hfind
  have hex1 : ∃ q, q ∈ setPostContent s.posts id rephrasePlaceholder ∧ q.id = id :=
    exists_mem_setPostContent s.posts id rephrasePlaceholder ⟨p, hmem, hid⟩
  constructor
  · cases outcome <;>
      simp [rephrasePost, hfind, rephraseStart, rephraseFinish, List.mem_filter]
  · cases outcome with
    | ok newContent =>
      obtain ⟨q, hq, _, hqc⟩ :=
        find?_setPostContent (setPostContent s.posts id rephrasePlaceholder) id newContent hex1
      simp [rephrasePost, hfind, rephraseStart, rephraseFinish, hq, hqc]
    | error e =>
      obtain ⟨q, hq, _, hqc⟩ :=
        find?_setPostContent (setPostContent s.posts id rephrasePlaceholder) id p.content hex1
      simp [rephrasePost, hfind, rephraseStart, rephraseFinish, hq, hqc]

/-- Witness for C8 at a concrete state, on the failure path: the busy flag
is cleared and the original content is restored. -/
theorem rephrase_outcome_correct_witness :
    "a" ∉ (rephrasePost c8State "a" (Except.error ())).1.busy ∧
    ((rephrasePost c8State "a" (Except.error ())).1.posts.find?
        (fun q => q.id == "a")).map Post.content = some "orig" :=
  rephrase_outcome_correct c8State "a" c8Post (Except.error ()) rfl rfl

/-! ## Grouping lemmas -/

theorem keysOf_cons (g : PushHistory) (gs : List PushHistory) :
    keysOf (g :: gs) = g.id :: keysOf gs := rfl

theorem joinGroups_cons (g : PushHistory) (gs : List PushHistory) :
    joinGroups (g :: gs) = g.posts ++ joinGroups gs := by
  simp [joinGroups]

theorem keysOf_insertPost (k : String) (p : Post) (gs : List PushHistory) :
    keysOf (insertPost k p gs) =
      if k ∈ keysOf gs then keysOf gs else keysOf gs ++ [k] := by
  induction gs with
  | nil => simp [insertPost, keysOf]
  | cons g rest ih =>
    by_cases h : g.id = k
    · have hk : k ∈ keysOf (g :: rest) := by
        rw [keysOf_cons, ← h]
        exact List.mem_cons_self _ _
      rw [if_pos hk]
      simp [insertPost, h, keysOf_cons]
    · rw [insertPost, if_neg h, keysOf_cons, keysOf_cons, ih]
      by_cases hk : k ∈ keysOf rest
      · rw [if_pos hk, if_pos (List.mem_cons_of_mem _ hk)]
      · have hk2 : k ∉ g.id :: keysOf rest := by
          intro hc
          rcases List.mem_cons.mp hc with hc1 | hc2
          · exact h hc1.symm
          · exact hk hc2
        rw [if_neg hk, if_neg hk2]
        rfl

theorem nodup_keys_insertPost (k : String) (p : Post) (gs : List PushHistory)
    (h : (keysOf gs).Nodup) : (keysOf (insertPost k p gs)).Nodup := by
  rw [keysOf_insertPost]
  by_cases hk : k ∈ keysOf gs
  · rwa [if_pos hk]
  · rw [if_neg hk]
    simp [List.nodup_append, h, hk]

theorem bucket_insertPost_self (k : String) (p : Post) (gs : List PushHistory) :
    bucket k (insertPost k p gs) = bucket k gs ++ [p] := by
  induction gs with
  | nil => simp [insertPost, bucket]
  | cons g rest ih =>
    by_cases h : g.id = k
    · simp [insertPost, bucket, h]
    · simp [insertPost, bucket, h, ih]

theorem bucket_insertPost_ne (k ko : String) (p : Post) (gs : List PushHistory)
    (h : k ≠ ko) : bucket k (insertPost ko p gs) = bucket k gs := by
  induction gs with
  | nil => simp [insertPost, bucket, Ne.symm h]
  | cons g rest ih =>
    by_cases hg : g.id = ko
    · have hko : ko ≠ k := Ne.symm h
      simp [insertPost, bucket, hg, hko]
    · simp [insertPost, bucket, hg, ih]

theorem bucket_groupAux (k : String) : ∀ (l : List Post) (gs : List PushHistory),
    bucket k (groupAux gs l) =
      bucket k gs ++ l.filter (fun p => originKey p == k) := by
  intro l
  induction l with
  | nil => intro gs; simp [groupAux]
  | cons p rest ih =>
    intro gs
    rw [groupAux, ih]
    by_cases h : originKey p = k
    · rw [← h, bucket_insertPost_self]
      simp [List.filter_cons, h]
    · have h2 : k ≠ originKey p := fun hc => h hc.symm
      rw [bucket_insertPost_ne k (originKey p) p gs h2]
      simp [List.filter_cons, h]

theorem nodup_keys_groupAux : ∀ (l : List Post) (gs : List PushHistory),
    (keysOf gs).Nodup → (keysOf (groupAux gs l)).Nodup := by
  intro l
  induction l with
  | nil => intro gs h; simpa [groupAux] using h
  | cons p rest ih =>
    intro gs h
    exact ih _ (nodup_keys_insertPost _ _ _ h)

theorem bucket_of_mem : ∀ (gs : List PushHistory) (g : PushHistory),
    (keysOf gs).Nodup → g ∈ gs → bucket g.id gs = g.posts := by
  intro gs
  induction gs with
  | nil =>
    intro g _ hg
    cases hg
  | cons a rest ih =>
    intro g hnd hg
    have hnd2 := hnd
    rw [keysOf_cons, List.nodup_cons] at hnd2
    rcases List.mem_cons.mp hg with rfl | hgr
    · simp [bucket]
    · have ha : a.id ≠ g.id := by
        intro he
        exact hnd2.1 (he ▸ List.mem_map_of_mem PushHistory.id hgr)
      simp only [bucket, if_neg ha]
      exact ih g hnd2.2 hgr

theorem exists_group_of_bucket_ne_nil : ∀ (gs : List PushHistory) (k : String),
    bucket k gs ≠ [] → ∃ g, g ∈ gs ∧ g.id = k ∧ g.posts = bucket k gs := by
  intro gs
  induction gs with
  | nil =>
    intro k h
    simp [bucket] at h
  | cons a rest ih =>
    intro k h
    by_cases ha : a.id = k
    · exact ⟨a, List.mem_cons_self _ _, ha, by simp [bucket, ha]⟩
    · have h2 : bucket k rest ≠ [] := by simpa [bucket, ha] using h
      obtain ⟨g, hg, hid, hp⟩ := ih k h2
      exact ⟨g, List.mem_cons_of_mem _ hg, hid, by simpa [bucket, ha] using hp⟩

theorem joinGroups_insertPost (k : String) (p : Post) (gs : List PushHistory) :
    List.Perm (joinGroups (insertPost k p gs)) (p :: joinGroups gs) := by
  induction gs with
  | nil =>
    simp [insertPost, joinGroups]
  | cons g rest ih =>
    by_cases h : g.id = k
    · rw [insertPost, if_pos h, joinGroups_cons, joinGroups_cons]
      exact List.Perm.append_right _ (List.perm_append_singleton p g.posts)
    · rw [insertPost, if_neg h, joinGroups_cons, joinGroups_cons]
      exact List.Perm.trans (List.Perm.append_left g.posts ih) List.perm_middle

theorem joinGroups_groupAux : ∀ (l : List Post) (gs : List PushHistory),
    List.Perm (joinGroups (groupAux gs l)) (joinGroups gs ++ l) := by
  intro l
  induction l with
  | nil => intro gs; simp [groupAux]
  | cons p rest ih =>
    intro gs
    rw [groupAux]
    have h1 := ih (insertPost (originKey p) p gs)
    have h2 : List.Perm (joinGroups (insertPost (originKey p) p gs) ++ rest)
        (p :: (joinGroups gs ++ rest)) :=
      List.Perm.append_right _ (joinGroups_insertPost _ _ _)
    have h3 : List.Perm (p :: (joinGroups gs ++ rest)) (joinGroups gs ++ (p :: rest)) :=
      List.perm_middle.symm
    exact List.Perm.trans h1 (List.Perm.trans h2 h3)

theorem bucket_groupPosts (k : String) (l : List Post) :
    bucket k (groupPosts l) = l.filter (fun p => originKey p == k) := by
  have h := bucket_groupAux k l []
  simpa [groupPosts, bucket] using h

/-- C4 counterexample: the source grouping key uses JavaScript `||`
semantics, so a present-but-empty repository string falls back to
"unknown"; the claim formula uses `??`, under which the empty string is
kept. For a post with repository equal to the empty string and branch
"main", the produced group id is "unknown-main" while the formula written
in the claim evaluates to "-main" — the group id does not equal the
claimed originKey. -/
theorem grouping_spec_formula_counterexample :
    c4Post.repository = some "" ∧
    keysOf (groupPosts [c4Post]) = ["unknown-main"] ∧
    originKeySpecFormula c4Post = "-main" ∧
    ("unknown-main" : String) ≠ "-main" := by
  refine ⟨rfl, rfl, rfl, by decide⟩

/-- C4 (amended): grouping correctness with the originKey as the source
computes it, with `||` defaulting — a missing or empty repository becomes
"unknown" and a missing or empty branch becomes "main". For every ingested
list of posts: the produced group ids are pairwise distinct; each group
holds exactly the ingested posts whose originKey is its id, in ingest
order; the concatenation of all groups is a permutation of the ingested
list (no duplicates, no omissions); and every ingested post lies in
exactly one group, the one whose id is its originKey. -/
theorem grouping_correct (l : List Post) :
    (keysOf (groupPosts l)).Nodup ∧
    (∀ g, g ∈ groupPosts l → g.posts = l.filter (fun p => originKey p == g.id)) ∧
    List.Perm (joinGroups (groupPosts l)) l ∧
    (∀ p, p ∈ l → ∃ g, g ∈ groupPosts l ∧ g.id = originKey p ∧ p ∈ g.posts ∧
      (∀ gtwo, gtwo ∈ groupPosts l → p ∈ gtwo.posts → gtwo = g)) := by
  have hnd : (keysOf (groupPosts l)).Nodup :=
    nodup_keys_groupAux l [] (by simp [keysOf])
  have hchar : ∀ g, g ∈ groupPosts l →
      g.posts = l.filter (fun p => originKey p == g.id) := by
    intro g hg
    rw [← bucket_groupPosts g.id l]
    exact (bucket_of_mem _ g hnd hg).symm
  refine ⟨hnd, hchar, ?_, ?_⟩
  · have h := joinGroups_groupAux l []
    simpa [groupPosts, joinGroups] using h
  · intro p hp
    have hbk : bucket (originKey p) (groupPosts l) =
        l.filter (fun q => originKey q == originKey p) :=
      bucket_groupPosts _ _
    have hpmem : p ∈ l.filter (fun q => originKey q == originKey p) := by
      simp [List.mem_filter, hp]
    have hne : bucket (originKey p) (groupPosts l) ≠ [] := by
      rw [hbk]
      intro hnil
      rw [hnil] at hpmem
      cases hpmem
    obtain ⟨g, hg, hgid, hgp⟩ := exists_group_of_bucket_ne_nil (groupPosts l) (originKey p) hne
    refine ⟨g, hg, hgid, ?_, ?_⟩
    · rw [hgp, hbk]
      exact hpmem
    · intro gtwo hgtwo hpgtwo
      have hcr := hchar gtwo hgtwo
      rw [hcr] at hpgtwo
      have hky : originKey p = gtwo.id := by
        have := (List.mem_filter.mp hpgtwo).2
        simpa using this
      have hgg : gtwo.id = g.id := by rw [← hky, hgid]
      exact List.inj_on_of_nodup_map (by simpa [keysOf] using hnd) hgtwo hg hgg
